import Mathlib

/-!
# Systemd cgroup applier and nsinit sync pipe

A shallow embedding of `pkg/cgroups/apply_systemd.go` and
`pkg/libcontainer/nsinit/sync_pipe.go`.

Every call that leaves the package (the systemd manager, the cgroup
filesystem helpers, the socket and file handles) is answered by a `World`
and recorded, with its answer, as an `Event`.  A `World` sees the events
recorded so far, so the same call may be answered differently at different
moments of a run.  Go strings are taken as sequences of characters, `int`
and `int64` as `Int`, and a conversion to an unsigned type as a reduction
modulo the width.
-/

/-- Go's `error` value, kept as its message; `Option error` is a possibly nil error. -/
abbrev error := String

/-- Answer of an outside function of shape `(T, error)` that is used only when the error is nil. -/
inductive Result (α : Type) where
  | ok (a : α)
  | err (e : error)
deriving DecidableEq, Repr

/-- Way a Go function call ends: it gives back its return values, or it panics. -/
inductive Go (α : Type) where
  | returns (a : α)
  | panics (msg : String)
deriving DecidableEq, Repr

namespace strings

/-- Go's `strings.HasSuffix`: `len(s) >= len(suffix) && s[len(s)-len(suffix):] == suffix`. -/
def HasSuffix (s suffix : String) : Bool :=
  decide (suffix.data.length ≤ s.data.length) &&
    decide (s.data.drop (s.data.length - suffix.data.length) = suffix.data)

end strings

namespace strconv

/-- Go's `strconv.Itoa`: the decimal text of an integer, with a leading `-` when negative. -/
def Itoa (i : Int) : String :=
  match i with
  | Int.ofNat n => Nat.repr n
  | Int.negSucc n => "-" ++ Nat.repr (n + 1)

end strconv

namespace systemd

/-- Modelled from the spec: the `pkg/systemd` declaration of one device allow-list entry
(a device node and its permissions), which is not among the sources. -/
structure DeviceAllow where
  Node : String
  Permissions : String
deriving DecidableEq, Repr

/-- Modelled from the spec: the dynamically typed value (`interface\x7b\x7d`) carried by a unit
property or returned by a property lookup; only the Go types that `apply_systemd.go` stores
or expects are listed. -/
inductive Value where
  | string (s : String)
  | uint32s (l : List Nat)
  | uint64 (n : Nat)
  | deviceAllows (l : List DeviceAllow)
deriving DecidableEq, Repr

/-- Modelled from the spec: the `pkg/systemd` unit property, a name and a value. -/
structure Property where
  Name : String
  Value : Value
deriving DecidableEq, Repr

/-- Modelled from the spec: the handle of a unit as given back by `GetUnit`. -/
structure Unit where
  handle : Nat
deriving DecidableEq, Repr

/-- Modelled from the spec: the manager handle with its capability flag. -/
structure Manager where
  HasStartTransientUnit : Bool
deriving DecidableEq, Repr

end systemd

namespace cgroups

/-- Modelled from the spec: the `Cgroup` declaration of `pkg/cgroups`, which is not among the
sources: parent group name, group name, whether device access is unrestricted, memory limit
(0 = unset), CPU share weight (0 = unset) and the ordered `(key, value)` unit-property
overrides.  `Memory` and `CpuShares` are Go `int64`. -/
structure Cgroup where
  Name : String
  Parent : String
  DeviceAccess : Bool
  Memory : Int
  CpuShares : Int
  UnitProperties : List (String × String)
deriving DecidableEq, Repr

/-- The `systemdCgroup` struct: it has no fields. -/
structure systemdCgroup where
deriving DecidableEq, Repr

/-- The `ActiveCgroup` interface; `systemdCgroup` is the only implementation built here. -/
abbrev ActiveCgroup := systemdCgroup

/-- One call that left the package, with the answer it got. -/
inductive Event where
  | GetManager (r : Result systemd.Manager)
  | GetUnit (unitName : String) (r : Result systemd.Unit)
  | StartTransientUnit (unitName mode : String) (properties : List systemd.Property)
      (r : Option error)
  | SetUnitProperties (unitName : String) (runtime : Bool) (properties : List systemd.Property)
      (r : Option error)
  | GetProperty (unit : systemd.Unit) (iface property : String) (r : Result systemd.Value)
  | GetAllSubsystems (r : Result (List String))
  | FindCgroupMountpoint (subsystem : String) (r : String × Option error)
  | writeFile (dir file data : String) (r : Option error)
deriving DecidableEq, Repr

/-- Modelled from the spec: the outside collaborators of `apply_systemd.go`, none of which is
among the sources: the unit manager (`GetManager`, `GetUnit`, `StartTransientUnit`,
`SetUnitProperties`, `GetProperty`), the cgroup filesystem (`GetAllSubsystems`,
`FindCgroupMountpoint`, `writeFile`) and `filepath.Join`.  Each answer may depend on the
events recorded so far. -/
structure World where
  GetManager : List Event → Result systemd.Manager
  GetUnit : List Event → String → Result systemd.Unit
  StartTransientUnit : List Event → String → String → List systemd.Property → Option error
  SetUnitProperties : List Event → String → Bool → List systemd.Property → Option error
  GetProperty : List Event → systemd.Unit → String → String → Result systemd.Value
  GetAllSubsystems : List Event → Result (List String)
  FindCgroupMountpoint : List Event → String → String × Option error
  writeFile : List Event → String → String → String → Option error
  Join : String → String → String

/-- The function `getIfaceForUnit`. -/
def getIfaceForUnit (unitName : String) : String :=
  if strings.HasSuffix unitName ".scope" then
    "org.freedesktop.systemd1.Scope"
  else if strings.HasSuffix unitName ".service" then
    "org.freedesktop.systemd1.Service"
  else
    "org.freedesktop.systemd1.Unit"

/-- The loop of `joinUnit`: `for i := len(subsystems) - 1; i >= 0; i--`, entered with
`n = i + 1` iterations left.  The type assertion `cgroup.(string)` panics on a value that is
not a string. -/
def joinUnit.loop (w : World) (cgroup : systemd.Value) (pid : Int) (subsystems : List String) :
    Nat → List Event → Go (Option error) × List Event
  | 0, tr => (Go.returns none, tr)
  | i + 1, tr =>
    match subsystems[i]? with
    | none => (Go.panics "index out of range", tr)
    | some subsyst =>
      let r := w.FindCgroupMountpoint tr subsyst
      let tr1 := tr ++ [Event.FindCgroupMountpoint subsyst r]
      if r.1 ≠ "" then
        match cgroup with
        | systemd.Value.string g =>
          let path := w.Join r.1 g
          let data := strconv.Itoa pid
          let e := w.writeFile tr1 path "cgroup.procs" data
          joinUnit.loop w cgroup pid subsystems i
            (tr1 ++ [Event.writeFile path "cgroup.procs" data e])
        | _ => (Go.panics "interface conversion: interface is not string", tr1)
      else
        joinUnit.loop w cgroup pid subsystems i tr1

/-- The function `joinUnit`, run after the events `tr`; it gives back its `error` result and
the events recorded up to its return. -/
def joinUnit (w : World) (tr : List Event) (unit : systemd.Unit) (unitName : String)
    (pid : Int) : Go (Option error) × List Event :=
  let iface := getIfaceForUnit unitName
  let r := w.GetProperty tr unit iface "ControlGroup"
  let tr1 := tr ++ [Event.GetProperty unit iface "ControlGroup" r]
  match r with
  | Result.err e => (Go.returns (some e), tr1)
  | Result.ok cgroup =>
    let rs := w.GetAllSubsystems tr1
    let tr2 := tr1 ++ [Event.GetAllSubsystems rs]
    match rs with
    | Result.err e => (Go.returns (some e), tr2)
    | Result.ok subsystems =>
      joinUnit.loop w cgroup pid subsystems subsystems.length tr2

/-- The `for _, v := range c.UnitProperties` loop of `systemdApply` with its `switch v[0]`,
carrying `slice`, `reuseUnit` and `unitName`; an unknown key ends the function with
`fmt.Errorf("Unknown unit propery %s", v[0])`. -/
def systemdApply.overrides :
    List (String × String) → String → Bool → String → Result (String × Bool × String)
  | [], slice, reuseUnit, unitName => Result.ok (slice, reuseUnit, unitName)
  | v :: rest, slice, reuseUnit, unitName =>
    if v.1 = "Slice" then
      systemdApply.overrides rest v.2 reuseUnit unitName
    else if v.1 = "ReuseUnit" then
      systemdApply.overrides rest slice true v.2
    else
      Result.err ("Unknown unit propery " ++ v.1)

/-- The literal `[]systemd.DeviceAllow` of `systemdApply`. -/
def systemdApply.deviceAllow : List systemd.DeviceAllow :=
  [ ⟨"/dev/null", "rwm"⟩,
    ⟨"/dev/zero", "rwm"⟩,
    ⟨"/dev/full", "rwm"⟩,
    ⟨"/dev/random", "rwm"⟩,
    ⟨"/dev/urandom", "rwm"⟩,
    ⟨"/dev/tty", "rwm"⟩,
    ⟨"/dev/console", "rwm"⟩,
    ⟨"/dev/tty0", "rwm"⟩,
    ⟨"/dev/tty1", "rwm"⟩,
    ⟨"/dev/pts/ptmx", "rwm"⟩ ]

/-- Go's conversion `uint32(x)` of an integer. -/
def uint32 (x : Int) : Nat := (x % 2 ^ 32).toNat

/-- Go's conversion `uint64(x)` of an integer. -/
def uint64 (x : Int) : Nat := (x % 2 ^ 64).toNat

/-- The `properties` slice of `systemdApply` as it stands after the four `append` blocks
(source lines 81 to 117), from the `slice` and `reuseUnit` left by the override loop. -/
def systemdApply.properties (c : Cgroup) (pid : Int) (slice : String) (reuseUnit : Bool) :
    List systemd.Property :=
  let properties : List systemd.Property := []
  let properties :=
    if !reuseUnit then
      properties ++
        [ ⟨"Slice", systemd.Value.string slice⟩,
          ⟨"Description", systemd.Value.string ("docker container " ++ c.Name)⟩,
          ⟨"PIDs", systemd.Value.uint32s [uint32 pid]⟩ ]
    else properties
  let properties :=
    if !c.DeviceAccess then
      properties ++
        [ ⟨"DevicePolicy", systemd.Value.string "strict"⟩,
          ⟨"DeviceAllow", systemd.Value.deviceAllows systemdApply.deviceAllow⟩ ]
    else properties
  let properties :=
    if c.Memory ≠ 0 then
      properties ++ [ ⟨"MemoryLimit", systemd.Value.uint64 (uint64 c.Memory)⟩ ]
    else properties
  let properties :=
    if c.CpuShares ≠ 0 then
      properties ++ [ ⟨"CPUShares", systemd.Value.uint64 (uint64 c.CpuShares)⟩ ]
    else properties
  properties

/-- The tail of `systemdApply` (source lines 152 to 177), common to both branches: the
control group lookup and the `devices.allow` patch. -/
def systemdApply.patch (w : World) (c : Cgroup) (unit : systemd.Unit) (unitName : String)
    (tr : List Event) : Go (Option ActiveCgroup × Option error) × List Event :=
  let iface := getIfaceForUnit unitName
  let r := w.GetProperty tr unit iface "ControlGroup"
  let tr1 := tr ++ [Event.GetProperty unit iface "ControlGroup" r]
  match r with
  | Result.err e => (Go.returns (none, some e), tr1)
  | Result.ok cgroup =>
    if !c.DeviceAccess then
      let m := w.FindCgroupMountpoint tr1 "devices"
      let tr2 := tr1 ++ [Event.FindCgroupMountpoint "devices" m]
      match m.2 with
      | some e => (Go.returns (none, some e), tr2)
      | none =>
        match cgroup with
        | systemd.Value.string g =>
          let path := w.Join m.1 g
          let e1 := w.writeFile tr2 path "devices.allow" "c 136:* rwm"
          let tr3 := tr2 ++ [Event.writeFile path "devices.allow" "c 136:* rwm" e1]
          match e1 with
          | some e => (Go.returns (none, some e), tr3)
          | none =>
            let e2 := w.writeFile tr3 path "devices.allow" "c 10:200 rwm"
            let tr4 := tr3 ++ [Event.writeFile path "devices.allow" "c 10:200 rwm" e2]
            match e2 with
            | some e => (Go.returns (none, some e), tr4)
            | none => (Go.returns (some {}, none), tr4)
        | _ => (Go.panics "interface conversion: interface is not string", tr2)
    else
      (Go.returns (some {}, none), tr1)

/-- The function `systemdApply`; it gives back its `(ActiveCgroup, error)` result and the
events of the whole run. -/
def systemdApply (w : World) (c : Cgroup) (pid : Int) :
    Go (Option ActiveCgroup × Option error) × List Event :=
  match systemdApply.overrides c.UnitProperties "system.slice" false
      (c.Parent ++ "-" ++ c.Name ++ ".scope") with
  | Result.err e => (Go.returns (none, some e), [])
  | Result.ok (slice, reuseUnit, unitName) =>
    let properties := systemdApply.properties c pid slice reuseUnit
    let rm := w.GetManager []
    let tr1 := [Event.GetManager rm]
    match rm with
    | Result.err e => (Go.returns (none, some e), tr1)
    | Result.ok _ =>
      if reuseUnit then
        let ru := w.GetUnit tr1 unitName
        let tr2 := tr1 ++ [Event.GetUnit unitName ru]
        match ru with
        | Result.err e => (Go.returns (none, some e), tr2)
        | Result.ok unit =>
          match joinUnit w tr2 unit unitName pid with
          | (Go.panics msg, tr3) => (Go.panics msg, tr3)
          | (Go.returns (some e), tr3) => (Go.returns (none, some e), tr3)
          | (Go.returns none, tr3) =>
            let rs := w.SetUnitProperties tr3 unitName true properties
            let tr4 := tr3 ++ [Event.SetUnitProperties unitName true properties rs]
            match rs with
            | some e => (Go.returns (none, some e), tr4)
            | none => systemdApply.patch w c unit unitName tr4
      else
        let rs := w.StartTransientUnit tr1 unitName "replace" properties
        let tr2 := tr1 ++ [Event.StartTransientUnit unitName "replace" properties rs]
        match rs with
        | some e => (Go.returns (none, some e), tr2)
        | none =>
          let ru := w.GetUnit tr2 unitName
          let tr3 := tr2 ++ [Event.GetUnit unitName ru]
          match ru with
          | Result.err e => (Go.returns (none, some e), tr3)
          | Result.ok unit => systemdApply.patch w c unit unitName tr3

end cgroups

namespace libcontainer

/-- Modelled from the spec: the `libcontainer.Context` declaration, which is not among the
sources: a mapping of string keys to string values, kept as its list of entries. -/
abbrev Context := List (String × String)

end libcontainer

namespace os

/-- Go's `*os.File` when not nil: the descriptor it wraps and its name. -/
structure File where
  fd : Nat
  name : String
deriving DecidableEq, Repr

/-- Go's `os.NewFile`: nil when the descriptor, converted to `int`, is negative. -/
def NewFile (fd : Nat) (name : String) : Option File :=
  if fd % 2 ^ 64 < 2 ^ 63 then some ⟨fd % 2 ^ 64, name⟩ else none

end os

namespace net

/-- Go's `*net.UnixConn` when not nil, named by the descriptor it wraps. -/
structure UnixConn where
  fd : Nat
deriving DecidableEq, Repr

end net

namespace nsinit

/-- The struct `SyncPipe`; a nil pointer field is `none`. -/
structure SyncPipe where
  child : Option os.File
  parentConn : Option net.UnixConn
deriving DecidableEq, Repr

/-- One operation on an endpoint, with the answer it got. -/
inductive Event where
  | connWrite (conn : net.UnixConn) (data : String) (r : Nat × Option error)
  | connClose (conn : net.UnixConn) (r : Option error)
  | fileClose (file : os.File) (r : Option error)
deriving DecidableEq, Repr

/-- The standard-library operations that `SendToChild` and `Close` call, taken as parameters:
`json.Marshal` on a context, and `Write` and `Close` on the endpoints.  The answers of the
endpoints may depend on the events recorded so far. -/
structure World where
  Marshal : libcontainer.Context → Result String
  connWrite : List Event → net.UnixConn → String → Nat × Option error
  connClose : List Event → net.UnixConn → Option error
  fileClose : List Event → os.File → Option error

/-- The function `NewSyncPipeFromChildFd`. -/
def NewSyncPipeFromChildFd (childFd : Nat) : Option SyncPipe × Option error :=
  let childFile := os.NewFile childFd "childPipe"
  (some { child := childFile, parentConn := none }, none)

/-- The method `SyncPipe.SendToChild`, run after the events `tr`.  The answer of `Write` is
dropped, as in the source.  Calling `Write` through a nil `parentConn` panics. -/
def SyncPipe.SendToChild (w : World) (s : SyncPipe) (context : libcontainer.Context)
    (tr : List Event) : Go (Option error) × List Event :=
  match w.Marshal context with
  | Result.err e => (Go.returns (some e), tr)
  | Result.ok data =>
    match s.parentConn with
    | none => (Go.panics "invalid memory address or nil pointer dereference", tr)
    | some conn =>
      let r := w.connWrite tr conn data
      (Go.returns none, tr ++ [Event.connWrite conn data r])

/-- The method `SyncPipe.Close`, run after the events `tr`: it gives back its `error` result,
the receiver as the call leaves it, and the events recorded up to its return.  Neither field
is reset and both answers of the endpoints are dropped, as in the source. -/
def SyncPipe.Close (w : World) (s : SyncPipe) (tr : List Event) :
    Option error × SyncPipe × List Event :=
  let tr1 :=
    match s.parentConn with
    | some conn => tr ++ [Event.connClose conn (w.connClose tr conn)]
    | none => tr
  let tr2 :=
    match s.child with
    | some file => tr1 ++ [Event.fileClose file (w.fileClose tr1 file)]
    | none => tr1
  (none, s, tr2)

/-- A sequence of `n` calls of `Close` on the same `SyncPipe`, run after the events `tr`: the
results of the calls in order, the receiver and the events at the end. -/
def SyncPipe.CloseTimes (w : World) : Nat → SyncPipe → List Event →
    List (Option error) × SyncPipe × List Event
  | 0, s, tr => ([], s, tr)
  | n + 1, s, tr =>
    let r := SyncPipe.Close w s tr
    let rest := SyncPipe.CloseTimes w n r.2.1 r.2.2
    (r.1 :: rest.1, rest.2.1, rest.2.2)

end nsinit

namespace cgroups

/-- Every override key is one of the two recognized keys. -/
def Recognized (c : Cgroup) : Prop :=
  ∀ v ∈ c.UnitProperties, v.1 = "Slice" ∨ v.1 = "ReuseUnit"

instance (c : Cgroup) : Decidable (Recognized c) := by
  unfold Recognized; infer_instance

/-- The unit name that an event hands to the unit manager, when it hands one. -/
def Event.unitName? : Event → Option String
  | Event.GetUnit n _ => some n
  | Event.StartTransientUnit n _ _ _ => some n
  | Event.SetUnitProperties n _ _ _ => some n
  | _ => none

/-- The property list that an event hands to the unit manager, when it hands one. -/
def Event.properties? : Event → Option (List systemd.Property)
  | Event.StartTransientUnit _ _ ps _ => some ps
  | Event.SetUnitProperties _ _ ps _ => some ps
  | _ => none

/-- Events that `joinUnit` records. -/
def Event.Join (unitName : String) : Event → Prop
  | Event.GetProperty _ i p _ => i = getIfaceForUnit unitName ∧ p = "ControlGroup"
  | Event.GetAllSubsystems _ => True
  | Event.FindCgroupMountpoint _ _ => True
  | Event.writeFile _ f _ _ => f = "cgroup.procs"
  | _ => False

/-- Events that the tail of `systemdApply` records. -/
def Event.Patch (unitName : String) : Event → Prop
  | Event.GetProperty _ i p _ => i = getIfaceForUnit unitName ∧ p = "ControlGroup"
  | Event.FindCgroupMountpoint s _ => s = "devices"
  | Event.writeFile _ f _ _ => f = "devices.allow"
  | _ => False

/-- Events of `systemdApply` that come before its property call on the reuse branch. -/
def Event.Before (unitName : String) : Event → Prop
  | Event.GetManager _ => True
  | Event.GetUnit n _ => n = unitName
  | e => Event.Join unitName e

/-- Events of `systemdApply` on the branch that creates the unit. -/
def Event.Create (unitName : String) (properties : List systemd.Property) : Event → Prop
  | Event.GetManager _ => True
  | Event.GetUnit n _ => n = unitName
  | Event.StartTransientUnit n m ps _ => n = unitName ∧ m = "replace" ∧ ps = properties
  | e => Event.Patch unitName e

/-- The mountpoint lookups among some events, in order: subsystem asked and path answered. -/
def lookups : List Event → List (String × String)
  | [] => []
  | Event.FindCgroupMountpoint s r :: rest => (s, r.1) :: lookups rest
  | _ :: rest => lookups rest

/-- The file writes among some events, in order: directory, file and data. -/
def writes : List Event → List (String × String × String)
  | [] => []
  | Event.writeFile d f data _ :: rest => (d, f, data) :: writes rest
  | _ :: rest => writes rest

/-- The three facts read off an event: the property list it hands over, the unit name it
hands over, and that it is no start of a unit when `reuseUnit` is set. -/
def Event.Handed (reuseUnit : Bool) (unitName : String) (properties : List systemd.Property)
    (e : Event) : Prop :=
  (∀ ps, e.properties? = some ps → ps = properties) ∧
  (∀ n, e.unitName? = some n → n = unitName) ∧
  (reuseUnit = true → ∀ n m ps r, e ≠ Event.StartTransientUnit n m ps r)

/-- A world in which every outside call succeeds: the unit sits in the control group
`/g`, two controllers are mounted, and paths are joined by plain concatenation. -/
def worldOk : World where
  GetManager := fun _ => Result.ok ⟨true⟩
  GetUnit := fun _ _ => Result.ok ⟨1⟩
  StartTransientUnit := fun _ _ _ _ => none
  SetUnitProperties := fun _ _ _ _ => none
  GetProperty := fun _ _ _ _ => Result.ok (systemd.Value.string "/g")
  GetAllSubsystems := fun _ => Result.ok ["cpu", "name=systemd"]
  FindCgroupMountpoint := fun _ s => ("/sys/fs/cgroup/" ++ s, none)
  writeFile := fun _ _ _ _ => none
  Join := fun a b => a ++ b

/-- The world `worldOk`, except that the mountpoint of the `devices` controller is not
found. -/
def worldNoDevices : World :=
  { worldOk with
    FindCgroupMountpoint := fun _ s =>
      if s = "devices" then ("", some "mountpoint for devices not found")
      else ("/sys/fs/cgroup/" ++ s, none) }

/-- The world `worldOk`, except that the `cpu` controller has no mountpoint and every write
of a pid fails. -/
def worldJoinFails : World :=
  { worldOk with
    FindCgroupMountpoint := fun _ s =>
      if s = "cpu" then ("", some "mountpoint for cpu not found")
      else ("/sys/fs/cgroup/" ++ s, none)
    writeFile := fun _ _ _ _ => some "permission denied" }

/-- Parent `docker`, name `abc123`, restricted devices, a memory limit, no overrides. -/
def cgroupPlain : Cgroup :=
  { Name := "abc123", Parent := "docker", DeviceAccess := false, Memory := 1048576,
    CpuShares := 0, UnitProperties := [] }

/-- The spec `cgroupPlain` with one override of an unknown key. -/
def cgroupBogus : Cgroup :=
  { cgroupPlain with UnitProperties := [("Slice", "machine.slice"), ("Bogus", "x")] }

/-- The spec `cgroupPlain` with the override `ReuseUnit = foo.service`. -/
def cgroupReuse : Cgroup :=
  { cgroupPlain with UnitProperties := [("ReuseUnit", "foo.service")] }

/-- The spec `cgroupPlain` with two `ReuseUnit` overrides of different values. -/
def cgroupTwoReuse : Cgroup :=
  { cgroupPlain with
    UnitProperties := [("ReuseUnit", "a.service"), ("ReuseUnit", "b.service")] }

end cgroups

namespace nsinit

/-- A call on an endpoint, without its answer. -/
inductive Call where
  | connWrite (conn : net.UnixConn) (data : String)
  | connClose (conn : net.UnixConn)
  | fileClose (file : os.File)
deriving DecidableEq, Repr

/-- The call that an event records. -/
def Event.call : Event → Call
  | Event.connWrite conn data _ => Call.connWrite conn data
  | Event.connClose conn _ => Call.connClose conn
  | Event.fileClose file _ => Call.fileClose file

/-- Number of `Close` calls that a connection receives among some events. -/
def connCloses (conn : net.UnixConn) (tr : List Event) : Nat :=
  tr.countP (fun e =>
    match e with
    | Event.connClose c _ => decide (c = conn)
    | _ => false)

/-- Number of `Close` calls that a file receives among some events. -/
def fileCloses (file : os.File) (tr : List Event) : Nat :=
  tr.countP (fun e =>
    match e with
    | Event.fileClose f _ => decide (f = file)
    | _ => false)

/-- A world whose endpoints behave like closed-once handles: a close of an endpoint that
was closed before answers with an error, and every write answers with an error. -/
def worldPipe : World where
  Marshal := fun _ => Result.ok "\x7b\"a\":\"1\"\x7d"
  connWrite := fun _ _ _ => (0, some "write: broken pipe")
  connClose := fun tr conn =>
    if 0 < connCloses conn tr then some "use of closed network connection" else none
  fileClose := fun tr file =>
    if 0 < fileCloses file tr then some "invalid argument" else none

/-- A pipe holding both endpoints, as `NewSyncPipe` builds it. -/
def pipeBoth : SyncPipe :=
  { child := some ⟨3, ""⟩, parentConn := some ⟨4⟩ }

end nsinit

/-! ## Lemmas on strings and lists -/

theorem HasSuffix_iff_isSuffix (s t : String) :
    strings.HasSuffix s t = true ↔ t.data <:+ s.data := by
  unfold strings.HasSuffix
  simp only [Bool.and_eq_true, decide_eq_true_eq]
  constructor
  · rintro ⟨_, h⟩
    rw [← h]
    exact List.drop_suffix _ _
  · intro h
    refine ⟨h.length_le, ?_⟩
    obtain ⟨p, hp⟩ := h
    rw [← hp]
    simp

theorem HasSuffix_iff_append (s t : String) :
    strings.HasSuffix s t = true ↔ ∃ p : String, s = p ++ t := by
  rw [HasSuffix_iff_isSuffix]
  constructor
  · rintro ⟨p, hp⟩
    refine ⟨⟨p⟩, ?_⟩
    apply String.ext
    simp [hp]
  · rintro ⟨p, rfl⟩
    exact ⟨p.data, by simp⟩

theorem scope_service_disjoint (s : String) (h1 : strings.HasSuffix s ".scope" = true) :
    strings.HasSuffix s ".service" = false := by
  by_contra h2
  rw [Bool.not_eq_false] at h2
  rw [HasSuffix_iff_isSuffix] at h1 h2
  have h := List.suffix_of_suffix_length_le h1 h2 (by decide)
  revert h
  decide

namespace cgroups

/-! ## getIfaceForUnit -/

/-- C9: `getIfaceForUnit u` is the Scope interface exactly when `u` ends with `.scope`, the
Service interface exactly when `u` ends with `.service`, and the Unit interface exactly when it
ends with neither; the derived name `parent-name.scope` always selects the Scope interface. -/
theorem getIfaceForUnit_by_suffix (u : String) :
    (getIfaceForUnit u = "org.freedesktop.systemd1.Scope" ↔ ∃ p : String, u = p ++ ".scope") ∧
    (getIfaceForUnit u = "org.freedesktop.systemd1.Service" ↔
      ∃ p : String, u = p ++ ".service") ∧
    (getIfaceForUnit u = "org.freedesktop.systemd1.Unit" ↔
      (¬ ∃ p : String, u = p ++ ".scope") ∧ ¬ ∃ p : String, u = p ++ ".service") ∧
    ∀ parent name : String,
      getIfaceForUnit (parent ++ "-" ++ name ++ ".scope") = "org.freedesktop.systemd1.Scope" := by
  have key : ∀ v : String, (∃ p : String, v = p ++ ".scope") →
      getIfaceForUnit v = "org.freedesktop.systemd1.Scope" := by
    intro v hv
    unfold getIfaceForUnit
    rw [if_pos ((HasSuffix_iff_append v ".scope").2 hv)]
  refine ⟨?_, ?_, ?_, fun parent name => key _ ⟨_, rfl⟩⟩
  all_goals
    simp only [← HasSuffix_iff_append]
    unfold getIfaceForUnit
    by_cases h1 : strings.HasSuffix u ".scope" = true
    · have h2 := scope_service_disjoint u h1
      simp [h1, h2]
    · by_cases h2 : strings.HasSuffix u ".service" = true
      · simp [h1, h2]
      · simp [h1, h2]

/-! ## The override loop -/

theorem overrides_unknown (l : List (String × String))
    (h : ∃ v ∈ l, v.1 ≠ "Slice" ∧ v.1 ≠ "ReuseUnit") (slice : String) (reuseUnit : Bool)
    (unitName : String) :
    ∃ v ∈ l, (v.1 ≠ "Slice" ∧ v.1 ≠ "ReuseUnit") ∧
      systemdApply.overrides l slice reuseUnit unitName =
        Result.err ("Unknown unit propery " ++ v.1) := by
  induction l generalizing slice reuseUnit unitName with
  | nil => simp at h
  | cons a rest ih =>
    by_cases h1 : a.1 = "Slice"
    · have hr : ∃ v ∈ rest, v.1 ≠ "Slice" ∧ v.1 ≠ "ReuseUnit" := by
        obtain ⟨v, hv, hne⟩ := h
        rcases List.mem_cons.1 hv with rfl | hv
        · exact absurd h1 hne.1
        · exact ⟨v, hv, hne⟩
      obtain ⟨v, hv, hne, he⟩ := ih hr a.2 reuseUnit unitName
      exact ⟨v, List.mem_cons_of_mem _ hv, hne, by simp [systemdApply.overrides, h1, he]⟩
    · by_cases h2 : a.1 = "ReuseUnit"
      · have hr : ∃ v ∈ rest, v.1 ≠ "Slice" ∧ v.1 ≠ "ReuseUnit" := by
          obtain ⟨v, hv, hne⟩ := h
          rcases List.mem_cons.1 hv with rfl | hv
          · exact absurd h2 hne.2
          · exact ⟨v, hv, hne⟩
        obtain ⟨v, hv, hne, he⟩ := ih hr slice true a.2
        exact ⟨v, List.mem_cons_of_mem _ hv, hne, by simp [systemdApply.overrides, h1, h2, he]⟩
      · exact ⟨a, List.mem_cons_self _ _, ⟨h1, h2⟩, by simp [systemdApply.overrides, h1, h2]⟩

theorem overrides_no_reuse (l : List (String × String))
    (hk : ∀ v ∈ l, v.1 = "Slice" ∨ v.1 = "ReuseUnit") (hn : ∀ v ∈ l, v.1 ≠ "ReuseUnit")
    (slice : String) (reuseUnit : Bool) (unitName : String) :
    ∃ slice1, systemdApply.overrides l slice reuseUnit unitName =
      Result.ok (slice1, reuseUnit, unitName) := by
  induction l generalizing slice with
  | nil => exact ⟨slice, rfl⟩
  | cons a rest ih =>
    have h1 : a.1 = "Slice" := by
      rcases hk a (List.mem_cons_self _ _) with h | h
      · exact h
      · exact absurd h (hn a (List.mem_cons_self _ _))
    obtain ⟨s1, hs1⟩ := ih (fun v hv => hk v (List.mem_cons_of_mem _ hv))
      (fun v hv => hn v (List.mem_cons_of_mem _ hv)) a.2
    exact ⟨s1, by simp [systemdApply.overrides, h1, hs1]⟩

theorem overrides_append (pre rest : List (String × String))
    (hk : ∀ v ∈ pre, v.1 = "Slice" ∨ v.1 = "ReuseUnit")
    (slice : String) (reuseUnit : Bool) (unitName : String) :
    ∃ slice1 reuse1 name1, systemdApply.overrides (pre ++ rest) slice reuseUnit unitName =
      systemdApply.overrides rest slice1 reuse1 name1 := by
  induction pre generalizing slice reuseUnit unitName with
  | nil => exact ⟨slice, reuseUnit, unitName, rfl⟩
  | cons a pre ih =>
    have hk1 : ∀ v ∈ pre, v.1 = "Slice" ∨ v.1 = "ReuseUnit" :=
      fun v hv => hk v (List.mem_cons_of_mem _ hv)
    by_cases h1 : a.1 = "Slice"
    · obtain ⟨s1, r1, n1, h⟩ := ih hk1 a.2 reuseUnit unitName
      exact ⟨s1, r1, n1, by simp [systemdApply.overrides, h1, h]⟩
    · have h2 : a.1 = "ReuseUnit" := (hk a (List.mem_cons_self _ _)).resolve_left h1
      obtain ⟨s1, r1, n1, h⟩ := ih hk1 slice true a.2
      exact ⟨s1, r1, n1, by simp [systemdApply.overrides, h1, h2, h]⟩

/-- With recognized keys only, the loop ends normally. -/
theorem overrides_ok (l : List (String × String))
    (hk : ∀ v ∈ l, v.1 = "Slice" ∨ v.1 = "ReuseUnit")
    (slice : String) (reuseUnit : Bool) (unitName : String) :
    ∃ slice1 reuse1 name1, systemdApply.overrides l slice reuseUnit unitName =
      Result.ok (slice1, reuse1, name1) := by
  have h := overrides_append l [] hk slice reuseUnit unitName
  simpa [systemdApply.overrides] using h

/-- The last `ReuseUnit` entry decides: `reuseUnit` is set and its value is the unit name. -/
theorem overrides_last_reuse (pre post : List (String × String)) (u : String)
    (hk : ∀ v ∈ pre ++ ("ReuseUnit", u) :: post, v.1 = "Slice" ∨ v.1 = "ReuseUnit")
    (hn : ∀ v ∈ post, v.1 ≠ "ReuseUnit")
    (slice : String) (reuseUnit : Bool) (unitName : String) :
    ∃ slice1, systemdApply.overrides (pre ++ ("ReuseUnit", u) :: post) slice reuseUnit unitName =
      Result.ok (slice1, true, u) := by
  obtain ⟨s1, r1, n1, h⟩ := overrides_append pre (("ReuseUnit", u) :: post)
    (fun v hv => hk v (List.mem_append_left _ hv)) slice reuseUnit unitName
  obtain ⟨s2, h2⟩ := overrides_no_reuse post
    (fun v hv => hk v (List.mem_append_right _ (List.mem_cons_of_mem _ hv))) hn s1 true u
  refine ⟨s2, ?_⟩
  rw [h]
  simpa [systemdApply.overrides] using h2

/-- A list with a `ReuseUnit` entry splits at its last one. -/
theorem split_last_reuse (l : List (String × String)) (h : ∃ v ∈ l, v.1 = "ReuseUnit") :
    ∃ pre u post, l = pre ++ ("ReuseUnit", u) :: post ∧ ∀ v ∈ post, v.1 ≠ "ReuseUnit" := by
  induction l with
  | nil => simp at h
  | cons a rest ih =>
    by_cases hr : ∃ v ∈ rest, v.1 = "ReuseUnit"
    · obtain ⟨pre, u, post, he, hn⟩ := ih hr
      exact ⟨a :: pre, u, post, by simp [he], hn⟩
    · have ha : a.1 = "ReuseUnit" := by
        obtain ⟨v, hv, hv1⟩ := h
        rcases List.mem_cons.1 hv with rfl | hv
        · exact hv1
        · exact absurd ⟨v, hv, hv1⟩ hr
      refine ⟨[], a.2, rest, ?_, fun v hv hv1 => hr ⟨v, hv, hv1⟩⟩
      rw [← ha]
      rfl

/-! ## Shape of the recorded events -/

theorem joinUnit_loop_events (w : World) (cgroup : systemd.Value) (pid : Int)
    (subsystems : List String) (unitName : String) (n : Nat) (tr : List Event) :
    ∃ new, (joinUnit.loop w cgroup pid subsystems n tr).2 = tr ++ new ∧
      ∀ e ∈ new, Event.Join unitName e := by
  induction n generalizing tr with
  | zero => exact ⟨[], by simp [joinUnit.loop]⟩
  | succ i ih =>
    unfold joinUnit.loop
    cases hs : subsystems[i]? with
    | none => exact ⟨[], by simp⟩
    | some subsyst =>
      simp only []
      by_cases hm : (w.FindCgroupMountpoint tr subsyst).1 = ""
      · obtain ⟨new, h1, h2⟩ :=
          ih (tr ++ [Event.FindCgroupMountpoint subsyst (w.FindCgroupMountpoint tr subsyst)])
        simp only [ne_eq, hm, not_true_eq_false, if_false, h1]
        simp only [List.append_assoc]
        exact ⟨_, rfl, by simpa [Event.Join] using h2⟩
      · cases cgroup with
        | string g =>
          obtain ⟨new, h1, h2⟩ :=
            ih (tr ++ [Event.FindCgroupMountpoint subsyst (w.FindCgroupMountpoint tr subsyst)] ++
              [Event.writeFile (w.Join (w.FindCgroupMountpoint tr subsyst).1 g) "cgroup.procs"
                (strconv.Itoa pid)
                (w.writeFile
                  (tr ++ [Event.FindCgroupMountpoint subsyst (w.FindCgroupMountpoint tr subsyst)])
                  (w.Join (w.FindCgroupMountpoint tr subsyst).1 g) "cgroup.procs"
                  (strconv.Itoa pid))])
          simp only [ne_eq, hm, not_false_eq_true, if_true, h1]
          simp only [List.append_assoc]
          exact ⟨_, rfl, by simpa [Event.Join] using h2⟩
        | _ =>
          simp only [ne_eq, hm, not_false_eq_true, if_true]
          exact ⟨_, rfl, by simp [Event.Join]⟩

theorem joinUnit_events (w : World) (tr : List Event) (unit : systemd.Unit)
    (unitName : String) (pid : Int) :
    ∃ new, (joinUnit w tr unit unitName pid).2 = tr ++ new ∧
      ∀ e ∈ new, Event.Join unitName e := by
  unfold joinUnit
  simp only []
  cases hp : w.GetProperty tr unit (getIfaceForUnit unitName) "ControlGroup" with
  | err e => exact ⟨_, rfl, by simp [Event.Join]⟩
  | ok cgroup =>
    simp only []
    cases hs : w.GetAllSubsystems
        (tr ++ [Event.GetProperty unit (getIfaceForUnit unitName) "ControlGroup"
          (Result.ok cgroup)]) with
    | err e =>
      simp only [List.append_assoc]
      exact ⟨_, rfl, by simp [Event.Join]⟩
    | ok subsystems =>
      obtain ⟨new, h1, h2⟩ := joinUnit_loop_events w cgroup pid subsystems unitName
        subsystems.length
        (tr ++ [Event.GetProperty unit (getIfaceForUnit unitName) "ControlGroup"
          (Result.ok cgroup)] ++ [Event.GetAllSubsystems (Result.ok subsystems)])
      simp only [h1]
      simp only [List.append_assoc]
      exact ⟨_, rfl, by simpa [Event.Join] using h2⟩

theorem patch_events (w : World) (c : Cgroup) (unit : systemd.Unit) (unitName : String)
    (tr : List Event) :
    ∃ new, (systemdApply.patch w c unit unitName tr).2 = tr ++ new ∧
      ∀ e ∈ new, Event.Patch unitName e := by
  unfold systemdApply.patch
  simp only []
  repeat' split
  all_goals
    simp only [List.append_assoc]
    exact ⟨_, rfl, by simp [Event.Patch]⟩

theorem create_of_patch (unitName : String) (properties : List systemd.Property) (e : Event)
    (h : Event.Patch unitName e) : Event.Create unitName properties e := by
  cases e <;> simp_all [Event.Patch, Event.Create]

theorem before_of_join (unitName : String) (e : Event)
    (h : Event.Join unitName e) : Event.Before unitName e := by
  cases e <;> simp_all [Event.Join, Event.Before]

/-- On the branch that creates the unit, every recorded event is the manager lookup, the
start of the unit, the unit lookup, or an event of the tail. -/
theorem systemdApply_create_events (w : World) (c : Cgroup) (pid : Int)
    (slice unitName : String)
    (h : systemdApply.overrides c.UnitProperties "system.slice" false
      (c.Parent ++ "-" ++ c.Name ++ ".scope") = Result.ok (slice, false, unitName)) :
    ∀ e ∈ (systemdApply w c pid).2,
      Event.Create unitName (systemdApply.properties c pid slice false) e := by
  unfold systemdApply
  simp only [h]
  split
  · simp [Event.Create]
  · simp only [Bool.false_eq_true, if_false]
    split
    · simp [Event.Create]
    · split
      · simp [Event.Create]
      · rename_i unit _
        obtain ⟨new, h1, h2⟩ := patch_events w c unit unitName
          ([Event.GetManager (w.GetManager [])] ++
            [Event.StartTransientUnit unitName "replace"
              (systemdApply.properties c pid slice false)
              (w.StartTransientUnit [Event.GetManager (w.GetManager [])] unitName "replace"
                (systemdApply.properties c pid slice false))] ++
            [Event.GetUnit unitName
              (w.GetUnit
                ([Event.GetManager (w.GetManager [])] ++
                  [Event.StartTransientUnit unitName "replace"
                    (systemdApply.properties c pid slice false)
                    (w.StartTransientUnit [Event.GetManager (w.GetManager [])] unitName
                      "replace" (systemdApply.properties c pid slice false))])
                unitName)])
        rw [h1]
        intro e he
        simp only [List.mem_append, List.mem_singleton] at he
        rcases he with ((rfl | rfl) | rfl) | he
        · simp [Event.Create]
        · simp [Event.Create]
        · simp [Event.Create]
        · exact create_of_patch _ _ _ (h2 e he)

/-- On the reuse branch, the recorded events are events of the lookups and of the manual
join, then at most one property call, then events of the tail; when the property call is
made, the events before it are those of a manual join that returned nil. -/
theorem systemdApply_reuse_events (w : World) (c : Cgroup) (pid : Int)
    (slice unitName : String)
    (h : systemdApply.overrides c.UnitProperties "system.slice" false
      (c.Parent ++ "-" ++ c.Name ++ ".scope") = Result.ok (slice, true, unitName)) :
    ∃ pre, (∀ e ∈ pre, Event.Before unitName e) ∧
      ((systemdApply w c pid).2 = pre ∨
        ∃ rs post, (systemdApply w c pid).2 =
            pre ++ Event.SetUnitProperties unitName true
              (systemdApply.properties c pid slice true) rs :: post ∧
          (∀ e ∈ post, Event.Patch unitName e) ∧
          ∃ m u, joinUnit w
              [Event.GetManager (Result.ok m), Event.GetUnit unitName (Result.ok u)]
              u unitName pid = (Go.returns none, pre)) := by
  unfold systemdApply
  simp only [h]
  split
  · exact ⟨_, by simp [Event.Before], Or.inl rfl⟩
  · rename_i mgr hmgr
    simp only [if_true]
    split
    · exact ⟨_, by simp [Event.Before], Or.inl rfl⟩
    · rename_i unit hu
      obtain ⟨jn, hj1, hj2⟩ := joinUnit_events w
        ([Event.GetManager (w.GetManager [])] ++
          [Event.GetUnit unitName (w.GetUnit [Event.GetManager (w.GetManager [])] unitName)])
        unit unitName pid
      have hpre : ∀ e ∈ [Event.GetManager (w.GetManager [])] ++
          [Event.GetUnit unitName (w.GetUnit [Event.GetManager (w.GetManager [])] unitName)] ++
          jn, Event.Before unitName e := by
        intro e he
        simp only [List.mem_append, List.mem_singleton] at he
        rcases he with (rfl | rfl) | he
        · simp [Event.Before]
        · simp [Event.Before]
        · exact before_of_join _ _ (hj2 e he)
      split
      · rename_i msg tr3 hjr
        rw [hjr] at hj1
        exact ⟨_, hpre, Or.inl hj1⟩
      · rename_i e tr3 hjr
        rw [hjr] at hj1
        exact ⟨_, hpre, Or.inl hj1⟩
      · rename_i tr3 hjr
        rw [hjr] at hj1
        simp only at hj1
        subst hj1
        have hjoin : ∃ m u, joinUnit w
            [Event.GetManager (Result.ok m), Event.GetUnit unitName (Result.ok u)]
            u unitName pid =
            (Go.returns none,
              [Event.GetManager (w.GetManager [])] ++
                [Event.GetUnit unitName
                  (w.GetUnit [Event.GetManager (w.GetManager [])] unitName)] ++ jn) := by
          refine ⟨mgr, unit, ?_⟩
          rw [← hmgr, ← hu]
          exact hjr
        split
        · exact ⟨_, hpre, Or.inr ⟨_, [], rfl, by simp, hjoin⟩⟩
        · obtain ⟨new, h1, h2⟩ := patch_events w c unit unitName
            ([Event.GetManager (w.GetManager [])] ++
              [Event.GetUnit unitName
                (w.GetUnit [Event.GetManager (w.GetManager [])] unitName)] ++ jn ++
              [Event.SetUnitProperties unitName true (systemdApply.properties c pid slice true)
                (w.SetUnitProperties
                  ([Event.GetManager (w.GetManager [])] ++
                    [Event.GetUnit unitName
                      (w.GetUnit [Event.GetManager (w.GetManager [])] unitName)] ++ jn)
                  unitName true (systemdApply.properties c pid slice true))])
          rw [h1]
          exact ⟨_, hpre, Or.inr ⟨_, new, List.append_assoc _ _ _, h2, hjoin⟩⟩

theorem handed_of_patch (reuseUnit : Bool) (unitName : String)
    (properties : List systemd.Property) (x : Event) (hx : Event.Patch unitName x) :
    Event.Handed reuseUnit unitName properties x := by
  cases x <;> simp [Event.Patch] at hx <;>
    simp [Event.Handed, Event.properties?, Event.unitName?]

theorem handed_of_before (reuseUnit : Bool) (unitName : String)
    (properties : List systemd.Property) (x : Event) (hx : Event.Before unitName x) :
    Event.Handed reuseUnit unitName properties x := by
  cases x <;> simp [Event.Before, Event.Join] at hx <;>
    simp [Event.Handed, Event.properties?, Event.unitName?, hx]

theorem handed_of_create (unitName : String)
    (properties : List systemd.Property) (x : Event) (hx : Event.Create unitName properties x) :
    Event.Handed false unitName properties x := by
  cases x <;> simp [Event.Create, Event.Patch] at hx <;>
    simp [Event.Handed, Event.properties?, Event.unitName?, hx]

/-- What `systemdApply` hands to the unit manager: the unit name and the property list left
by the override loop, and no start of a unit on the reuse branch. -/
theorem systemdApply_handed (w : World) (c : Cgroup) (pid : Int)
    (slice : String) (reuseUnit : Bool) (unitName : String)
    (h : systemdApply.overrides c.UnitProperties "system.slice" false
      (c.Parent ++ "-" ++ c.Name ++ ".scope") = Result.ok (slice, reuseUnit, unitName)) :
    ∀ e ∈ (systemdApply w c pid).2,
      Event.Handed reuseUnit unitName (systemdApply.properties c pid slice reuseUnit) e := by
  intro e he
  cases reuseUnit with
  | false =>
    exact handed_of_create _ _ _ (systemdApply_create_events w c pid slice unitName h e he)
  | true =>
    obtain ⟨pre, hpre, hcase⟩ := systemdApply_reuse_events w c pid slice unitName h
    rcases hcase with htr | ⟨rs, post, htr, hpost, _⟩
    · rw [htr] at he
      exact handed_of_before _ _ _ _ (hpre e he)
    · rw [htr] at he
      rcases List.mem_append.1 he with he | he
      · exact handed_of_before _ _ _ _ (hpre e he)
      · rcases List.mem_cons.1 he with rfl | he
        · simp [Event.Handed, Event.properties?, Event.unitName?]
        · exact handed_of_patch _ _ _ _ (hpost e he)

/-! ## Override keys and the unit name -/

/-- C1: when some override key is neither `Slice` nor `ReuseUnit`, `systemdApply` returns an
error and no `ActiveCgroup`, and it has recorded no event: no unit-manager call and no cgroup
file write was made. -/
theorem systemdApply_unknown_key (w : World) (c : Cgroup) (pid : Int)
    (h : ∃ v ∈ c.UnitProperties, v.1 ≠ "Slice" ∧ v.1 ≠ "ReuseUnit") :
    ∃ e, systemdApply w c pid = (Go.returns (none, some e), []) := by
  obtain ⟨v, _, _, he⟩ := overrides_unknown c.UnitProperties h "system.slice" false
    (c.Parent ++ "-" ++ c.Name ++ ".scope")
  exact ⟨"Unknown unit propery " ++ v.1, by simp [systemdApply, he]⟩

/-- Witness of C1 on the overrides `Slice = machine.slice`, `Bogus = x`. -/
theorem systemdApply_unknown_key_witness :
    (∃ v ∈ cgroupBogus.UnitProperties, v.1 ≠ "Slice" ∧ v.1 ≠ "ReuseUnit") ∧
      ∃ e, systemdApply worldOk cgroupBogus 7 = (Go.returns (none, some e), []) :=
  ⟨by decide, systemdApply_unknown_key worldOk cgroupBogus 7 (by decide)⟩

/-- C2 as stated fails: with the overrides `ReuseUnit = a.service`, `ReuseUnit = b.service`
the spec has the entry `ReuseUnit = a.service`, yet the unit looked up is `b.service`. -/
theorem systemdApply_unit_name_counterexample :
    Recognized cgroupTwoReuse ∧
    ("ReuseUnit", "a.service") ∈ cgroupTwoReuse.UnitProperties ∧
    Event.GetUnit "b.service" (Result.ok ⟨1⟩) ∈ (systemdApply worldOk cgroupTwoReuse 7).2 ∧
    ¬ ∀ e ∈ (systemdApply worldOk cgroupTwoReuse 7).2,
        ∀ n, e.unitName? = some n → n = "a.service" := by
  refine ⟨by decide, by decide, by decide, fun hall => ?_⟩
  have hb := hall (Event.GetUnit "b.service" (Result.ok ⟨1⟩)) (by decide) "b.service" rfl
  revert hb
  decide

/-- C2, amended: with recognized keys only, every unit name handed to the unit manager
(`GetUnit`, `StartTransientUnit`, `SetUnitProperties`) is `Parent-Name.scope` when no override
is `ReuseUnit`, and is the value of the last `ReuseUnit` override when there is one. -/
theorem systemdApply_unit_name (w : World) (c : Cgroup) (pid : Int) (hk : Recognized c) :
    ((∀ v ∈ c.UnitProperties, v.1 ≠ "ReuseUnit") →
      ∀ e ∈ (systemdApply w c pid).2, ∀ n, e.unitName? = some n →
        n = c.Parent ++ "-" ++ c.Name ++ ".scope") ∧
    (∀ pre u post, c.UnitProperties = pre ++ ("ReuseUnit", u) :: post →
      (∀ v ∈ post, v.1 ≠ "ReuseUnit") →
      ∀ e ∈ (systemdApply w c pid).2, ∀ n, e.unitName? = some n → n = u) := by
  constructor
  · intro hn e he n hen
    obtain ⟨s1, h⟩ := overrides_no_reuse c.UnitProperties hk hn "system.slice" false
      (c.Parent ++ "-" ++ c.Name ++ ".scope")
    exact (systemdApply_handed w c pid _ _ _ h e he).2.1 n hen
  · intro pre u post hl hn e he n hen
    have hk1 : ∀ v ∈ pre ++ ("ReuseUnit", u) :: post, v.1 = "Slice" ∨ v.1 = "ReuseUnit" := by
      rw [← hl]; exact hk
    obtain ⟨s1, h⟩ := overrides_last_reuse pre post u hk1 hn "system.slice" false
      (c.Parent ++ "-" ++ c.Name ++ ".scope")
    rw [← hl] at h
    exact (systemdApply_handed w c pid _ _ _ h e he).2.1 n hen

/-- Witness of the amended C2 on the overrides `ReuseUnit = a.service`,
`ReuseUnit = b.service`. -/
theorem systemdApply_unit_name_witness :
    Recognized cgroupTwoReuse ∧
    ((∀ v ∈ cgroupTwoReuse.UnitProperties, v.1 ≠ "ReuseUnit") →
      ∀ e ∈ (systemdApply worldOk cgroupTwoReuse 7).2, ∀ n, e.unitName? = some n →
        n = cgroupTwoReuse.Parent ++ "-" ++ cgroupTwoReuse.Name ++ ".scope") ∧
    (∀ pre u post, cgroupTwoReuse.UnitProperties = pre ++ ("ReuseUnit", u) :: post →
      (∀ v ∈ post, v.1 ≠ "ReuseUnit") →
      ∀ e ∈ (systemdApply worldOk cgroupTwoReuse 7).2, ∀ n, e.unitName? = some n → n = u) :=
  ⟨by decide, systemdApply_unit_name worldOk cgroupTwoReuse 7 (by decide)⟩

/-! ## The property list -/

theorem properties_device (c : Cgroup) (pid : Int) (slice : String) (reuseUnit : Bool)
    (hd : c.DeviceAccess = false) :
    (systemdApply.properties c pid slice reuseUnit).filter
        (fun p => decide (p.Name = "DevicePolicy")) =
      [⟨"DevicePolicy", systemd.Value.string "strict"⟩] ∧
    (systemdApply.properties c pid slice reuseUnit).filter
        (fun p => decide (p.Name = "DeviceAllow")) =
      [⟨"DeviceAllow", systemd.Value.deviceAllows systemdApply.deviceAllow⟩] := by
  unfold systemdApply.properties
  cases reuseUnit <;> by_cases hm : c.Memory = 0 <;> by_cases hc : c.CpuShares = 0 <;>
    simp [hd, hm, hc, List.filter_cons]

theorem properties_names_nodup (c : Cgroup) (pid : Int) (slice : String) (reuseUnit : Bool) :
    ((systemdApply.properties c pid slice reuseUnit).map (fun p => p.Name)).Nodup := by
  unfold systemdApply.properties
  cases reuseUnit <;> cases c.DeviceAccess <;> by_cases hm : c.Memory = 0 <;>
    by_cases hc : c.CpuShares = 0 <;> simp [hm, hc]

theorem properties_memory (c : Cgroup) (pid : Int) (slice : String) (reuseUnit : Bool) :
    (c.Memory = 0 →
      ∀ p ∈ systemdApply.properties c pid slice reuseUnit, p.Name ≠ "MemoryLimit") ∧
    (c.Memory ≠ 0 →
      (systemdApply.properties c pid slice reuseUnit).filter
          (fun p => decide (p.Name = "MemoryLimit")) =
        [⟨"MemoryLimit", systemd.Value.uint64 (uint64 c.Memory)⟩]) := by
  unfold systemdApply.properties
  constructor
  · intro hm
    cases reuseUnit <;> cases c.DeviceAccess <;> by_cases hc : c.CpuShares = 0 <;>
      simp [hm, hc]
  · intro hm
    cases reuseUnit <;> cases c.DeviceAccess <;> by_cases hc : c.CpuShares = 0 <;>
      simp [hm, hc, List.filter_cons]

theorem properties_reuse (c : Cgroup) (pid : Int) (slice : String) :
    ∀ p ∈ systemdApply.properties c pid slice true,
      p.Name ≠ "Slice" ∧ p.Name ≠ "Description" ∧ p.Name ≠ "PIDs" := by
  unfold systemdApply.properties
  cases c.DeviceAccess <;> by_cases hm : c.Memory = 0 <;> by_cases hc : c.CpuShares = 0 <;>
    simp [hm, hc]

theorem uint64_of_pos (x : Int) (h0 : 0 < x) (h1 : x < 2 ^ 63) : uint64 x = x.toNat := by
  unfold uint64
  rw [Int.emod_eq_of_lt (le_of_lt h0) (by omega)]

/-- A list splits in one way only around its single element with a given property. -/
theorem append_cons_unique {α : Type} (P : α → Prop) (l1 l2 m1 m2 : List α) (a b : α)
    (h : l1 ++ a :: l2 = m1 ++ b :: m2) (hb : P b)
    (h1 : ∀ x ∈ l1, ¬ P x) (h2 : ∀ x ∈ l2, ¬ P x) : l1 = m1 ∧ a = b ∧ l2 = m2 := by
  induction l1 generalizing m1 with
  | nil =>
    cases m1 with
    | nil => simpa using h
    | cons c m1 =>
      simp only [List.nil_append, List.cons_append, List.cons.injEq] at h
      exact absurd hb (h2 b (by rw [h.2]; simp))
  | cons x l1 ih =>
    cases m1 with
    | nil =>
      simp only [List.nil_append, List.cons_append, List.cons.injEq] at h
      exact absurd (h.1 ▸ hb) (h1 x (List.mem_cons_self _ _))
    | cons c m1 =>
      simp only [List.cons_append, List.cons.injEq] at h
      obtain ⟨h3, h4, h5⟩ := ih m1 h.2 (fun y hy => h1 y (List.mem_cons_of_mem _ hy))
      exact ⟨by rw [h.1, h3], h4, h5⟩

/-- C3: with recognized keys and `DeviceAccess = false`, every property list that
`systemdApply` builds or hands to the unit manager has exactly one `DevicePolicy` property, of value `strict`, exactly one
`DeviceAllow` property, whose value is the fixed list of 10 entries with permissions `rwm`,
the device paths of that list are pairwise distinct, and no property name occurs twice. -/
theorem systemdApply_device_allow (w : World) (c : Cgroup) (pid : Int)
    (hk : Recognized c) (hd : c.DeviceAccess = false) :
    ∀ ps, ((∃ slice reuseUnit, ps = systemdApply.properties c pid slice reuseUnit) ∨
        ∃ e ∈ (systemdApply w c pid).2, e.properties? = some ps) →
      ps.filter (fun p => decide (p.Name = "DevicePolicy")) =
        [⟨"DevicePolicy", systemd.Value.string "strict"⟩] ∧
      ps.filter (fun p => decide (p.Name = "DeviceAllow")) =
        [⟨"DeviceAllow", systemd.Value.deviceAllows
          [⟨"/dev/null", "rwm"⟩, ⟨"/dev/zero", "rwm"⟩, ⟨"/dev/full", "rwm"⟩,
           ⟨"/dev/random", "rwm"⟩, ⟨"/dev/urandom", "rwm"⟩, ⟨"/dev/tty", "rwm"⟩,
           ⟨"/dev/console", "rwm"⟩, ⟨"/dev/tty0", "rwm"⟩, ⟨"/dev/tty1", "rwm"⟩,
           ⟨"/dev/pts/ptmx", "rwm"⟩]⟩] ∧
      (∀ l, (⟨"DeviceAllow", systemd.Value.deviceAllows l⟩ : systemd.Property) ∈ ps →
        l.length = 10 ∧ (l.map (fun d => d.Node)).Nodup) ∧
      (ps.map (fun p => p.Name)).Nodup := by
  intro ps hps
  have hp : ∃ slice reuseUnit, ps = systemdApply.properties c pid slice reuseUnit := by
    rcases hps with hb | ⟨e, he, hps⟩
    · exact hb
    · obtain ⟨slice, reuseUnit, unitName, h⟩ := overrides_ok c.UnitProperties hk
        "system.slice" false (c.Parent ++ "-" ++ c.Name ++ ".scope")
      exact ⟨slice, reuseUnit, (systemdApply_handed w c pid _ _ _ h e he).1 ps hps⟩
  obtain ⟨slice, reuseUnit, hp⟩ := hp
  subst hp
  obtain ⟨h1, h2⟩ := properties_device c pid slice reuseUnit hd
  refine ⟨h1, h2, ?_, properties_names_nodup c pid slice reuseUnit⟩
  intro l hl
  have hmem : (⟨"DeviceAllow", systemd.Value.deviceAllows l⟩ : systemd.Property) ∈
      (systemdApply.properties c pid slice reuseUnit).filter
        (fun p => decide (p.Name = "DeviceAllow")) := by
    rw [List.mem_filter]
    exact ⟨hl, by simp⟩
  rw [h2, List.mem_singleton] at hmem
  injection hmem with _ hv
  injection hv with hv
  subst hv
  exact ⟨by decide, by decide⟩

/-- Witness of C3 on the spec `docker`/`abc123` with restricted devices. -/
theorem systemdApply_device_allow_witness :
    Recognized cgroupPlain ∧ cgroupPlain.DeviceAccess = false ∧
    ∀ ps, ((∃ slice reuseUnit, ps = systemdApply.properties cgroupPlain 7 slice reuseUnit) ∨
        ∃ e ∈ (systemdApply worldOk cgroupPlain 7).2, e.properties? = some ps) →
      ps.filter (fun p => decide (p.Name = "DevicePolicy")) =
        [⟨"DevicePolicy", systemd.Value.string "strict"⟩] ∧
      ps.filter (fun p => decide (p.Name = "DeviceAllow")) =
        [⟨"DeviceAllow", systemd.Value.deviceAllows
          [⟨"/dev/null", "rwm"⟩, ⟨"/dev/zero", "rwm"⟩, ⟨"/dev/full", "rwm"⟩,
           ⟨"/dev/random", "rwm"⟩, ⟨"/dev/urandom", "rwm"⟩, ⟨"/dev/tty", "rwm"⟩,
           ⟨"/dev/console", "rwm"⟩, ⟨"/dev/tty0", "rwm"⟩, ⟨"/dev/tty1", "rwm"⟩,
           ⟨"/dev/pts/ptmx", "rwm"⟩]⟩] ∧
      (∀ l, (⟨"DeviceAllow", systemd.Value.deviceAllows l⟩ : systemd.Property) ∈ ps →
        l.length = 10 ∧ (l.map (fun d => d.Node)).Nodup) ∧
      (ps.map (fun p => p.Name)).Nodup :=
  ⟨by decide, rfl, systemdApply_device_allow worldOk cgroupPlain 7 (by decide) rfl⟩

/-- C4: with recognized keys and `Memory` an `int64`, a property list that `systemdApply`
builds or hands to the unit manager has no `MemoryLimit` property when `Memory = 0`, and has exactly one, of unsigned
64-bit value `Memory`, when `Memory > 0`. -/
theorem systemdApply_memory_limit (w : World) (c : Cgroup) (pid : Int)
    (hk : Recognized c) (hr : c.Memory < 2 ^ 63) :
    ∀ ps, ((∃ slice reuseUnit, ps = systemdApply.properties c pid slice reuseUnit) ∨
        ∃ e ∈ (systemdApply w c pid).2, e.properties? = some ps) →
      (c.Memory = 0 → ∀ p ∈ ps, p.Name ≠ "MemoryLimit") ∧
      (0 < c.Memory →
        ps.filter (fun p => decide (p.Name = "MemoryLimit")) =
          [⟨"MemoryLimit", systemd.Value.uint64 c.Memory.toNat⟩]) := by
  intro ps hps
  have hp : ∃ slice reuseUnit, ps = systemdApply.properties c pid slice reuseUnit := by
    rcases hps with hb | ⟨e, he, hps⟩
    · exact hb
    · obtain ⟨slice, reuseUnit, unitName, h⟩ := overrides_ok c.UnitProperties hk
        "system.slice" false (c.Parent ++ "-" ++ c.Name ++ ".scope")
      exact ⟨slice, reuseUnit, (systemdApply_handed w c pid _ _ _ h e he).1 ps hps⟩
  obtain ⟨slice, reuseUnit, hp⟩ := hp
  subst hp
  obtain ⟨h1, h2⟩ := properties_memory c pid slice reuseUnit
  refine ⟨h1, fun hpos => ?_⟩
  rw [h2 (ne_of_gt hpos), uint64_of_pos c.Memory hpos hr]

/-- Witness of C4 on the spec `docker`/`abc123` with `Memory = 1048576`. -/
theorem systemdApply_memory_limit_witness :
    Recognized cgroupPlain ∧ cgroupPlain.Memory < 2 ^ 63 ∧
    ∀ ps, ((∃ slice reuseUnit, ps = systemdApply.properties cgroupPlain 7 slice reuseUnit) ∨
        ∃ e ∈ (systemdApply worldOk cgroupPlain 7).2, e.properties? = some ps) →
      (cgroupPlain.Memory = 0 → ∀ p ∈ ps, p.Name ≠ "MemoryLimit") ∧
      (0 < cgroupPlain.Memory →
        ps.filter (fun p => decide (p.Name = "MemoryLimit")) =
          [⟨"MemoryLimit", systemd.Value.uint64 cgroupPlain.Memory.toNat⟩]) :=
  ⟨by decide, by decide,
    systemdApply_memory_limit worldOk cgroupPlain 7 (by decide) (by decide)⟩

/-- C5: with recognized keys that include `ReuseUnit`, no event of the run is a
`StartTransientUnit` call, and the property list of every `SetUnitProperties` call has no
`Slice`, `Description` or `PIDs` property.  Whenever a `SetUnitProperties` call is made, the
events before it are exactly those of a successful `GetManager`, a successful `GetUnit` of the
same unit name, and a run of `joinUnit` on that unit and pid that has returned nil; and after
it no `cgroup.procs` write and no `GetAllSubsystems` call follows.  So every write of the
manual join lies before the property call, and the call is not made before the join has
completed. -/
theorem systemdApply_reuse_order (w : World) (c : Cgroup) (pid : Int)
    (hk : Recognized c) (hr : ∃ v ∈ c.UnitProperties, v.1 = "ReuseUnit") :
    (∀ e ∈ (systemdApply w c pid).2, ∀ n m ps r, e ≠ Event.StartTransientUnit n m ps r) ∧
    (∀ n rt ps r, Event.SetUnitProperties n rt ps r ∈ (systemdApply w c pid).2 →
      ∀ p ∈ ps, p.Name ≠ "Slice" ∧ p.Name ≠ "Description" ∧ p.Name ≠ "PIDs") ∧
    (∀ pre post n rt ps r,
      (systemdApply w c pid).2 = pre ++ Event.SetUnitProperties n rt ps r :: post →
      (∃ m u, joinUnit w [Event.GetManager (Result.ok m), Event.GetUnit n (Result.ok u)]
          u n pid = (Go.returns none, pre)) ∧
      ∀ e ∈ post, (∀ d data r1, e ≠ Event.writeFile d "cgroup.procs" data r1) ∧
        ∀ r1, e ≠ Event.GetAllSubsystems r1) := by
  obtain ⟨l1, u, l2, hl, hn⟩ := split_last_reuse c.UnitProperties hr
  have hk1 : ∀ v ∈ l1 ++ ("ReuseUnit", u) :: l2, v.1 = "Slice" ∨ v.1 = "ReuseUnit" := by
    rw [← hl]; exact hk
  obtain ⟨slice, h⟩ := overrides_last_reuse l1 l2 u hk1 hn "system.slice" false
    (c.Parent ++ "-" ++ c.Name ++ ".scope")
  rw [← hl] at h
  have hh := systemdApply_handed w c pid _ _ _ h
  refine ⟨fun e he => (hh e he).2.2 rfl, ?_, ?_⟩
  · intro n rt ps r he p hp
    have hps := (hh _ he).1 ps rfl
    subst hps
    exact properties_reuse c pid slice p hp
  · intro pre post n rt ps r htr
    obtain ⟨pre0, hpre0, hcase⟩ := systemdApply_reuse_events w c pid slice u h
    have hnot1 : ∀ x ∈ pre0, ¬ ∃ n rt ps r, x = Event.SetUnitProperties n rt ps r := by
      rintro x hx ⟨n1, rt1, ps1, r1, rfl⟩
      simpa [Event.Before, Event.Join] using hpre0 _ hx
    have hsplit : (∃ m u1, joinUnit w
          [Event.GetManager (Result.ok m), Event.GetUnit n (Result.ok u1)] u1 n pid =
          (Go.returns none, pre)) ∧ ∀ e ∈ post, Event.Patch u e := by
      rcases hcase with h0 | ⟨rs, post0, h0, hpost0, hjoin⟩
      · have hmem : Event.SetUnitProperties n rt ps r ∈ pre0 := by
          rw [← h0, htr]; simp
        exact absurd ⟨n, rt, ps, r, rfl⟩ (hnot1 _ hmem)
      · have hnot2 : ∀ x ∈ post0, ¬ ∃ n rt ps r, x = Event.SetUnitProperties n rt ps r := by
          rintro x hx ⟨n1, rt1, ps1, r1, rfl⟩
          simpa [Event.Patch] using hpost0 _ hx
        rw [h0] at htr
        obtain ⟨h1, h2, h3⟩ := append_cons_unique
          (fun x => ∃ n rt ps r, x = Event.SetUnitProperties n rt ps r) _ _ _ _ _ _ htr
          ⟨n, rt, ps, r, rfl⟩ hnot1 hnot2
        injection h2 with hn _ _ _
        subst hn
        subst h1
        subst h3
        exact ⟨hjoin, hpost0⟩
    refine ⟨hsplit.1, fun e he => ?_⟩
    have hpatch := hsplit.2 e he
    constructor
    · rintro d data r1 rfl
      simp [Event.Patch] at hpatch
    · rintro r1 rfl
      simp [Event.Patch] at hpatch

/-- Witness of C5 on the override `ReuseUnit = foo.service`. -/
theorem systemdApply_reuse_order_witness :
    Recognized cgroupReuse ∧ (∃ v ∈ cgroupReuse.UnitProperties, v.1 = "ReuseUnit") ∧
    (∀ e ∈ (systemdApply worldOk cgroupReuse 7).2,
      ∀ n m ps r, e ≠ Event.StartTransientUnit n m ps r) ∧
    (∀ n rt ps r, Event.SetUnitProperties n rt ps r ∈ (systemdApply worldOk cgroupReuse 7).2 →
      ∀ p ∈ ps, p.Name ≠ "Slice" ∧ p.Name ≠ "Description" ∧ p.Name ≠ "PIDs") ∧
    (∀ pre post n rt ps r,
      (systemdApply worldOk cgroupReuse 7).2 =
        pre ++ Event.SetUnitProperties n rt ps r :: post →
      (∃ m u, joinUnit worldOk
          [Event.GetManager (Result.ok m), Event.GetUnit n (Result.ok u)]
          u n 7 = (Go.returns none, pre)) ∧
      ∀ e ∈ post, (∀ d data r1, e ≠ Event.writeFile d "cgroup.procs" data r1) ∧
        ∀ r1, e ≠ Event.GetAllSubsystems r1) :=
  ⟨by decide, by decide, systemdApply_reuse_order worldOk cgroupReuse 7 (by decide) (by decide)⟩

/-! ## The manual join -/

theorem joinUnit_loop_spec (w : World) (g : String) (pid : Int) (subsystems : List String)
    (n : Nat) (hn : n ≤ subsystems.length) (tr : List Event) :
    ∃ new, joinUnit.loop w (systemd.Value.string g) pid subsystems n tr =
        (Go.returns none, tr ++ new) ∧
      (lookups new).map Prod.fst = (subsystems.take n).reverse ∧
      writes new = ((lookups new).filter (fun sm => decide (sm.2 ≠ ""))).map
        (fun sm => (w.Join sm.2 g, "cgroup.procs", strconv.Itoa pid)) ∧
      ∀ e ∈ new, (∃ s r, e = Event.FindCgroupMountpoint s r) ∨
        ∃ d data r, e = Event.writeFile d "cgroup.procs" data r := by
  induction n generalizing tr with
  | zero => exact ⟨[], by simp [joinUnit.loop, lookups, writes]⟩
  | succ i ih =>
    have hi : i < subsystems.length := hn
    have hget : subsystems[i]? = some subsystems[i] := List.getElem?_eq_getElem hi
    have htake : (subsystems.take (i + 1)).reverse =
        subsystems[i] :: (subsystems.take i).reverse := by
      rw [List.take_succ, hget]
      simp
    unfold joinUnit.loop
    simp only [hget]
    by_cases hm : (w.FindCgroupMountpoint tr subsystems[i]).1 = ""
    · obtain ⟨new, h1, h2, h3, h4⟩ := ih (Nat.le_of_lt hi)
        (tr ++ [Event.FindCgroupMountpoint subsystems[i]
          (w.FindCgroupMountpoint tr subsystems[i])])
      refine ⟨Event.FindCgroupMountpoint subsystems[i]
        (w.FindCgroupMountpoint tr subsystems[i]) :: new, ?_, ?_, ?_, ?_⟩
      · simp only [ne_eq, hm, not_true_eq_false, if_false, h1]
        simp
      · simp [lookups, h2, htake]
      · simp [lookups, writes, h3, hm]
      · intro e he
        rcases List.mem_cons.1 he with rfl | he
        · exact Or.inl ⟨_, _, rfl⟩
        · exact h4 e he
    · obtain ⟨new, h1, h2, h3, h4⟩ := ih (Nat.le_of_lt hi)
        (tr ++ [Event.FindCgroupMountpoint subsystems[i]
            (w.FindCgroupMountpoint tr subsystems[i])] ++
          [Event.writeFile (w.Join (w.FindCgroupMountpoint tr subsystems[i]).1 g)
            "cgroup.procs" (strconv.Itoa pid)
            (w.writeFile
              (tr ++ [Event.FindCgroupMountpoint subsystems[i]
                (w.FindCgroupMountpoint tr subsystems[i])])
              (w.Join (w.FindCgroupMountpoint tr subsystems[i]).1 g) "cgroup.procs"
              (strconv.Itoa pid))])
      refine ⟨Event.FindCgroupMountpoint subsystems[i]
          (w.FindCgroupMountpoint tr subsystems[i]) ::
        Event.writeFile (w.Join (w.FindCgroupMountpoint tr subsystems[i]).1 g)
            "cgroup.procs" (strconv.Itoa pid)
            (w.writeFile
              (tr ++ [Event.FindCgroupMountpoint subsystems[i]
                (w.FindCgroupMountpoint tr subsystems[i])])
              (w.Join (w.FindCgroupMountpoint tr subsystems[i]).1 g) "cgroup.procs"
              (strconv.Itoa pid)) :: new, ?_, ?_, ?_, ?_⟩
      · simp only [ne_eq, hm, not_false_eq_true, if_true, h1]
        simp
      · simp [lookups, h2, htake]
      · simp [lookups, writes, h3, hm]
      · intro e he
        rcases List.mem_cons.1 he with rfl | he
        · exact Or.inl ⟨_, _, rfl⟩
        · rcases List.mem_cons.1 he with rfl | he
          · exact Or.inr ⟨_, _, _, rfl⟩
          · exact h4 e he

theorem joinUnit_spec (w : World) (tr : List Event) (unit : systemd.Unit) (unitName : String)
    (pid : Int) (g : String) (subsystems : List String)
    (hg : w.GetProperty tr unit (getIfaceForUnit unitName) "ControlGroup" =
      Result.ok (systemd.Value.string g))
    (hs : w.GetAllSubsystems
      (tr ++ [Event.GetProperty unit (getIfaceForUnit unitName) "ControlGroup"
        (Result.ok (systemd.Value.string g))]) = Result.ok subsystems) :
    ∃ new, joinUnit w tr unit unitName pid =
        (Go.returns none,
          tr ++ Event.GetProperty unit (getIfaceForUnit unitName) "ControlGroup"
              (Result.ok (systemd.Value.string g)) ::
            Event.GetAllSubsystems (Result.ok subsystems) :: new) ∧
      (lookups new).map Prod.fst = subsystems.reverse ∧
      writes new = ((lookups new).filter (fun sm => decide (sm.2 ≠ ""))).map
        (fun sm => (w.Join sm.2 g, "cgroup.procs", strconv.Itoa pid)) ∧
      ∀ e ∈ new, (∃ s r, e = Event.FindCgroupMountpoint s r) ∨
        ∃ d data r, e = Event.writeFile d "cgroup.procs" data r := by
  obtain ⟨new, h1, h2, h3, h4⟩ := joinUnit_loop_spec w g pid subsystems subsystems.length
    (le_refl _)
    (tr ++ [Event.GetProperty unit (getIfaceForUnit unitName) "ControlGroup"
      (Result.ok (systemd.Value.string g))] ++ [Event.GetAllSubsystems (Result.ok subsystems)])
  refine ⟨new, ?_, by simpa using h2, h3, h4⟩
  unfold joinUnit
  simp only [hg, hs, h1]
  simp

/-- C10: when the `ControlGroup` lookup gives the path `g` and `GetAllSubsystems` gives the
list `subsystems`, `joinUnit` returns nil; after those two calls it looks up the mountpoint of
every subsystem once, last subsystem first, and its writes are, in that same order, one write
of the decimal pid to `cgroup.procs` under `Join mountpoint g` for each lookup that gave a
non-empty mountpoint, whatever errors the lookups and the writes gave. -/
theorem joinUnit_reverse_order (w : World) (tr : List Event) (unit : systemd.Unit)
    (unitName : String) (pid : Int) (g : String) (subsystems : List String)
    (hg : w.GetProperty tr unit (getIfaceForUnit unitName) "ControlGroup" =
      Result.ok (systemd.Value.string g))
    (hs : w.GetAllSubsystems
      (tr ++ [Event.GetProperty unit (getIfaceForUnit unitName) "ControlGroup"
        (Result.ok (systemd.Value.string g))]) = Result.ok subsystems) :
    ∃ new, joinUnit w tr unit unitName pid =
        (Go.returns none,
          tr ++ Event.GetProperty unit (getIfaceForUnit unitName) "ControlGroup"
              (Result.ok (systemd.Value.string g)) ::
            Event.GetAllSubsystems (Result.ok subsystems) :: new) ∧
      (lookups new).map Prod.fst = subsystems.reverse ∧
      writes new = ((lookups new).filter (fun sm => decide (sm.2 ≠ ""))).map
        (fun sm => (w.Join sm.2 g, "cgroup.procs", strconv.Itoa pid)) ∧
      ∀ e ∈ new, (∃ s r, e = Event.FindCgroupMountpoint s r) ∨
        ∃ d data r, e = Event.writeFile d "cgroup.procs" data r :=
  joinUnit_spec w tr unit unitName pid g subsystems hg hs

/-- Witness of C10 in a world where one controller has no mountpoint and every write of the
pid fails. -/
theorem joinUnit_reverse_order_witness :
    worldJoinFails.GetProperty [] ⟨1⟩ (getIfaceForUnit "foo.service") "ControlGroup" =
      Result.ok (systemd.Value.string "/g") ∧
    worldJoinFails.GetAllSubsystems
      ([] ++ [Event.GetProperty ⟨1⟩ (getIfaceForUnit "foo.service") "ControlGroup"
        (Result.ok (systemd.Value.string "/g"))]) = Result.ok ["cpu", "name=systemd"] ∧
    ∃ new, joinUnit worldJoinFails [] ⟨1⟩ "foo.service" 7 =
        (Go.returns none,
          [] ++ Event.GetProperty ⟨1⟩ (getIfaceForUnit "foo.service") "ControlGroup"
              (Result.ok (systemd.Value.string "/g")) ::
            Event.GetAllSubsystems (Result.ok ["cpu", "name=systemd"]) :: new) ∧
      (lookups new).map Prod.fst = ["cpu", "name=systemd"].reverse ∧
      writes new = ((lookups new).filter (fun sm => decide (sm.2 ≠ ""))).map
        (fun sm => (worldJoinFails.Join sm.2 "/g", "cgroup.procs", strconv.Itoa 7)) ∧
      ∀ e ∈ new, (∃ s r, e = Event.FindCgroupMountpoint s r) ∨
        ∃ d data r, e = Event.writeFile d "cgroup.procs" data r :=
  ⟨rfl, rfl, joinUnit_reverse_order worldJoinFails [] ⟨1⟩ "foo.service" 7 "/g"
    ["cpu", "name=systemd"] rfl rfl⟩

/-! ## The devices patch -/

theorem joinUnit_returns_nil (w : World)
    (hGP : ∀ h u i p, ∃ g, w.GetProperty h u i p = Result.ok (systemd.Value.string g))
    (hGS : ∀ h, ∃ l, w.GetAllSubsystems h = Result.ok l)
    (tr : List Event) (unit : systemd.Unit) (unitName : String) (pid : Int) :
    (joinUnit w tr unit unitName pid).1 = Go.returns none := by
  obtain ⟨g, hg⟩ := hGP tr unit (getIfaceForUnit unitName) "ControlGroup"
  obtain ⟨l, hl⟩ := hGS (tr ++ [Event.GetProperty unit (getIfaceForUnit unitName)
    "ControlGroup" (Result.ok (systemd.Value.string g))])
  obtain ⟨new, h, _⟩ := joinUnit_spec w tr unit unitName pid g l hg hl
  rw [h]

theorem patch_lookup_fails (w : World) (c : Cgroup) (err : error)
    (hd : c.DeviceAccess = false)
    (hGP : ∀ h u i p, ∃ g, w.GetProperty h u i p = Result.ok (systemd.Value.string g))
    (hFM : ∀ h, (w.FindCgroupMountpoint h "devices").2 = some err)
    (unit : systemd.Unit) (unitName : String) (tr : List Event) :
    ∃ new, systemdApply.patch w c unit unitName tr = (Go.returns (none, some err), tr ++ new) ∧
      ∀ e ∈ new, ∀ d data r, e ≠ Event.writeFile d "devices.allow" data r := by
  obtain ⟨g, hg⟩ := hGP tr unit (getIfaceForUnit unitName) "ControlGroup"
  unfold systemdApply.patch
  simp only [hg, hd, hFM, Bool.not_false, if_true, List.append_assoc]
  exact ⟨_, rfl, by simp⟩

/-- C8 as stated fails: every unit-manager call succeeds and the mountpoint of `devices` is
not found; `systemdApply` then returns that error and no `ActiveCgroup`. -/
theorem systemdApply_devices_lookup_counterexample :
    Recognized cgroupPlain ∧ cgroupPlain.DeviceAccess = false ∧
    systemdApply worldNoDevices cgroupPlain 7 =
      (Go.returns (none, some "mountpoint for devices not found"),
        [Event.GetManager (Result.ok ⟨true⟩),
         Event.StartTransientUnit "docker-abc123.scope" "replace"
           (systemdApply.properties cgroupPlain 7 "system.slice" false) none,
         Event.GetUnit "docker-abc123.scope" (Result.ok ⟨1⟩),
         Event.GetProperty ⟨1⟩ "org.freedesktop.systemd1.Scope" "ControlGroup"
           (Result.ok (systemd.Value.string "/g")),
         Event.FindCgroupMountpoint "devices" ("", some "mountpoint for devices not found")]) ∧
    ¬ ∃ a, (systemdApply worldNoDevices cgroupPlain 7).1 = Go.returns (some a, none) := by
  refine ⟨by decide, rfl, by decide, ?_⟩
  rintro ⟨a, ha⟩
  have h1 : (systemdApply worldNoDevices cgroupPlain 7).1 =
      Go.returns (none, some "mountpoint for devices not found") := by decide
  rw [h1] at ha
  cases ha

/-- C8, amended: with recognized keys and `DeviceAccess = false`, when every unit-manager call
succeeds, the control group is a path, the subsystem list of the manual join is found, and
the mountpoint lookup of `devices` fails with `err`, `systemdApply` makes no `devices.allow`
write and returns `err` with no `ActiveCgroup`. -/
theorem systemdApply_devices_lookup (w : World) (c : Cgroup) (pid : Int) (err : error)
    (hk : Recognized c) (hd : c.DeviceAccess = false)
    (hGM : ∀ h, ∃ m, w.GetManager h = Result.ok m)
    (hGU : ∀ h n, ∃ u, w.GetUnit h n = Result.ok u)
    (hST : ∀ h n m ps, w.StartTransientUnit h n m ps = none)
    (hSP : ∀ h n rt ps, w.SetUnitProperties h n rt ps = none)
    (hGP : ∀ h u i p, ∃ g, w.GetProperty h u i p = Result.ok (systemd.Value.string g))
    (hGS : ∀ h, ∃ l, w.GetAllSubsystems h = Result.ok l)
    (hFM : ∀ h, (w.FindCgroupMountpoint h "devices").2 = some err) :
    (systemdApply w c pid).1 = Go.returns (none, some err) ∧
    ∀ e ∈ (systemdApply w c pid).2, ∀ d data r, e ≠ Event.writeFile d "devices.allow" data r := by
  obtain ⟨slice, reuseUnit, unitName, h⟩ := overrides_ok c.UnitProperties hk "system.slice"
    false (c.Parent ++ "-" ++ c.Name ++ ".scope")
  unfold systemdApply
  simp only [h]
  split
  · rename_i e hm
    obtain ⟨m, hm1⟩ := hGM []
    rw [hm1] at hm
    cases hm
  · cases reuseUnit with
    | true =>
      simp only [if_true]
      split
      · rename_i e hu
        obtain ⟨u, hu1⟩ := hGU [Event.GetManager (w.GetManager [])] unitName
        rw [hu1] at hu
        cases hu
      · rename_i unit hu
        have hnil := joinUnit_returns_nil w hGP hGS
          ([Event.GetManager (w.GetManager [])] ++
            [Event.GetUnit unitName (w.GetUnit [Event.GetManager (w.GetManager [])] unitName)])
          unit unitName pid
        obtain ⟨jn, hj1, hj2⟩ := joinUnit_events w
          ([Event.GetManager (w.GetManager [])] ++
            [Event.GetUnit unitName (w.GetUnit [Event.GetManager (w.GetManager [])] unitName)])
          unit unitName pid
        split
        · rename_i msg tr3 hjr
          rw [hjr] at hnil
          cases hnil
        · rename_i e tr3 hjr
          rw [hjr] at hnil
          cases hnil
        · rename_i tr3 hjr
          rw [hjr] at hj1
          simp only at hj1
          subst hj1
          simp only [hSP]
          obtain ⟨new, hp1, hp2⟩ := patch_lookup_fails w c err hd hGP hFM unit unitName
            ([Event.GetManager (w.GetManager [])] ++
              [Event.GetUnit unitName
                (w.GetUnit [Event.GetManager (w.GetManager [])] unitName)] ++ jn ++
              [Event.SetUnitProperties unitName true (systemdApply.properties c pid slice true)
                none])
          rw [hp1]
          refine ⟨rfl, ?_⟩
          intro e he d data r hne
          simp only [List.mem_append, List.mem_singleton] at he
          rcases he with (((rfl | rfl) | he) | rfl) | he
          · cases hne
          · cases hne
          · have := hj2 e he
            rw [hne] at this
            simp [Event.Join] at this
          · cases hne
          · exact hp2 e he d data r hne
    | false =>
      simp only [Bool.false_eq_true, if_false, hST]
      split
      · rename_i e hu
        obtain ⟨u, hu1⟩ := hGU
          ([Event.GetManager (w.GetManager [])] ++
            [Event.StartTransientUnit unitName "replace"
              (systemdApply.properties c pid slice false) none]) unitName
        rw [hu1] at hu
        cases hu
      · rename_i unit hu
        obtain ⟨new, hp1, hp2⟩ := patch_lookup_fails w c err hd hGP hFM unit unitName
          ([Event.GetManager (w.GetManager [])] ++
            [Event.StartTransientUnit unitName "replace"
              (systemdApply.properties c pid slice false) none] ++
            [Event.GetUnit unitName
              (w.GetUnit
                ([Event.GetManager (w.GetManager [])] ++
                  [Event.StartTransientUnit unitName "replace"
                    (systemdApply.properties c pid slice false) none])
                unitName)])
        rw [hp1]
        refine ⟨rfl, ?_⟩
        intro e he d data r hne
        simp only [List.mem_append, List.mem_singleton] at he
        rcases he with ((rfl | rfl) | rfl) | he
        · cases hne
        · cases hne
        · cases hne
        · exact hp2 e he d data r hne

/-- Witness of the amended C8 in the world where the mountpoint of `devices` is not found. -/
theorem systemdApply_devices_lookup_witness :
    Recognized cgroupPlain ∧ cgroupPlain.DeviceAccess = false ∧
    (systemdApply worldNoDevices cgroupPlain 7).1 =
      Go.returns (none, some "mountpoint for devices not found") ∧
    ∀ e ∈ (systemdApply worldNoDevices cgroupPlain 7).2,
      ∀ d data r, e ≠ Event.writeFile d "devices.allow" data r :=
  ⟨by decide, rfl,
    systemdApply_devices_lookup worldNoDevices cgroupPlain 7 "mountpoint for devices not found"
      (by decide) rfl (fun _ => ⟨_, rfl⟩) (fun _ _ => ⟨_, rfl⟩) (fun _ _ _ _ => rfl)
      (fun _ _ _ _ => rfl) (fun _ _ _ _ => ⟨_, rfl⟩) (fun _ => ⟨_, rfl⟩) (fun _ => rfl)⟩

end cgroups

namespace nsinit

/-! ## The sync pipe -/

/-- C6, the code at a failing input: the write on the parent's connection answers with an
error, and `SendToChild` still returns nil where a non-nil error is due. -/
theorem SendToChild_drops_write_error :
    (worldPipe.connWrite [] ⟨4⟩ "\x7b\"a\":\"1\"\x7d").2 = some "write: broken pipe" ∧
    SyncPipe.SendToChild worldPipe pipeBoth [("a", "1")] [] =
      (Go.returns none,
        [Event.connWrite ⟨4⟩ "\x7b\"a\":\"1\"\x7d" (0, some "write: broken pipe")]) := by
  decide

theorem Close_spec (w : World) (s : SyncPipe) (tr : List Event) :
    ∃ new, SyncPipe.Close w s tr = (none, s, tr ++ new) ∧
      new.map Event.call =
        s.parentConn.toList.map Call.connClose ++ s.child.toList.map Call.fileClose := by
  obtain ⟨child, parentConn⟩ := s
  cases child <;> cases parentConn
  · exact ⟨[], by simp [SyncPipe.Close], by simp⟩
  · rename_i conn
    exact ⟨[Event.connClose conn (w.connClose tr conn)], by simp [SyncPipe.Close],
      by simp [Event.call]⟩
  · rename_i file
    exact ⟨[Event.fileClose file (w.fileClose tr file)], by simp [SyncPipe.Close],
      by simp [Event.call]⟩
  · rename_i file conn
    exact ⟨[Event.connClose conn (w.connClose tr conn),
      Event.fileClose file (w.fileClose (tr ++ [Event.connClose conn (w.connClose tr conn)])
        file)], by simp [SyncPipe.Close], by simp [Event.call]⟩

theorem CloseTimes_spec (w : World) (n : Nat) (s : SyncPipe) (tr : List Event) :
    ∃ new, SyncPipe.CloseTimes w n s tr = (List.replicate n none, s, tr ++ new) ∧
      new.map Event.call =
        (List.replicate n
          (s.parentConn.toList.map Call.connClose ++
            s.child.toList.map Call.fileClose)).flatten := by
  induction n generalizing tr with
  | zero => exact ⟨[], by simp [SyncPipe.CloseTimes], by simp⟩
  | succ k ih =>
    obtain ⟨new1, h1, hc1⟩ := Close_spec w s tr
    obtain ⟨new2, h2, hc2⟩ := ih (tr ++ new1)
    refine ⟨new1 ++ new2, ?_, ?_⟩
    · simp [SyncPipe.CloseTimes, h1, h2, List.replicate_succ]
    · rw [List.map_append, hc1, hc2, List.replicate_succ, List.flatten_cons]

/-- C7 as stated fails: two calls of `Close` on a pipe holding both endpoints both return
nil, but the second call is no no-op: it calls `Close` on both endpoints again (here each
answers with an error, which is dropped), so each endpoint receives two `Close` calls. -/
theorem Close_twice_counterexample :
    SyncPipe.CloseTimes worldPipe 2 pipeBoth [] =
      ([none, none], pipeBoth,
        [Event.connClose ⟨4⟩ none, Event.fileClose ⟨3, ""⟩ none,
         Event.connClose ⟨4⟩ (some "use of closed network connection"),
         Event.fileClose ⟨3, ""⟩ (some "invalid argument")]) ∧
    ¬ connCloses ⟨4⟩ (SyncPipe.CloseTimes worldPipe 2 pipeBoth []).2.2 ≤ 1 ∧
    ¬ fileCloses ⟨3, ""⟩ (SyncPipe.CloseTimes worldPipe 2 pipeBoth []).2.2 ≤ 1 ∧
    (SyncPipe.Close worldPipe pipeBoth (SyncPipe.Close worldPipe pipeBoth []).2.2).2.2 ≠
      (SyncPipe.Close worldPipe pipeBoth []).2.2 := by
  decide

/-- C7, amended: for every pipe and every number `n` of calls of `Close` on it, every call
returns nil, whatever the endpoints answer, and the calls made on the endpoints are, for each
of the `n` calls of `Close` in turn, a `Close` of the parent connection when the pipe holds
one, then a `Close` of the child file when the pipe holds one, and nothing else.  A repeated
`Close` is therefore no no-op: it issues a further `Close` call on every held endpoint. -/
theorem Close_every_call (w : World) (n : Nat) (s : SyncPipe) (tr : List Event) :
    (SyncPipe.CloseTimes w n s tr).1 = List.replicate n none ∧
    ∃ new, (SyncPipe.CloseTimes w n s tr).2.2 = tr ++ new ∧
      new.map Event.call =
        (List.replicate n
          (s.parentConn.toList.map Call.connClose ++
            s.child.toList.map Call.fileClose)).flatten := by
  obtain ⟨new, h, hc⟩ := CloseTimes_spec w n s tr
  exact ⟨by rw [h], new, by rw [h], hc⟩

end nsinit
